import Mathlib

/-!
Verification development for the AR camera-overlay effects repository.

The repository drives three canvas overlays (accumulating snow, erasable
frost, firework bursts) from a per-frame update loop.  The numeric code of
the sources runs on JavaScript doubles; following the spec's own reading
("up to floating-point tolerance") we embed the arithmetic in `ℚ`, which is
exact for every constant appearing in the sources.  The two transcendental
host functions used by the snow simulator (`Math.sin` for the horizontal
drift and `Math.exp` for the deposit falloff kernel) are passed as explicit
function parameters `sinF`/`expF`; theorems that depend on their properties
assume only facts true of the real functions (for example `0 ≤ expF x`).
Randomness (`Math.random()`) is modelled by explicit streams of values
(`spawn : ℕ → SnowParticle`, `rand : ℕ → ℚ`), matching the call order of
the source.  Canvas drawing is modelled only where a claim observes it: the
snow profile path as its list of vertices, and the frost mask as an
accumulated per-point alpha (HTML canvas source-over alpha compositing).
-/

set_option maxHeartbeats 1000000
set_option maxRecDepth 8000

/-! ## Firework colors (FireworksOverlay, src/unnamed/part_003) -/

/-- RGB triple as produced by `getColor`; the source formats it into the
string `rgb(r, g, b)`, which we omit as purely presentational. -/
structure ColorRGB where
  r : ℤ
  g : ℤ
  b : ℤ
deriving DecidableEq

/-- A palette of three colors shared by one burst group. -/
structure Palette where
  core : ColorRGB
  mid : ColorRGB
  outer : ColorRGB
deriving DecidableEq

/-- First reference palette of the source (`PALETTES[0]`). -/
def palette1 : Palette := ⟨⟨157, 0, 255⟩, ⟨123, 131, 255⟩, ⟨255, 215, 0⟩⟩

/-- Second reference palette of the source (`PALETTES[1]`). -/
def palette2 : Palette := ⟨⟨255, 0, 100⟩, ⟨0, 255, 255⟩, ⟨255, 255, 255⟩⟩

/-- Third reference palette of the source (`PALETTES[2]`). -/
def palette3 : Palette := ⟨⟨0, 50, 255⟩, ⟨0, 255, 100⟩, ⟨255, 200, 100⟩⟩

/-- The palette table of the source. -/
def PALETTES : List Palette := [palette1, palette2, palette3]

/-- JavaScript `Math.round`: round half towards positive infinity. -/
def jsRound (x : ℚ) : ℤ := ⌊x + 1/2⌋

/-- Embedding of `getColor` (part_003 lines 73-96).  The source takes the
particle and reads only `p.palette`, so we take the palette directly.
`progress` is `life / maxLife`. -/
def getColor (pal : Palette) (progress : ℚ) : ColorRGB :=
  let c1 := if progress > 3/5 then pal.mid else pal.outer
  let c2 := if progress > 3/5 then pal.core else pal.mid
  let ratio0 := if progress > 3/5 then (progress - 3/5) / (2/5) else progress / (3/5)
  let ratio := max 0 (min 1 ratio0)
  ⟨jsRound ((c1.r : ℚ) + ((c2.r : ℚ) - (c1.r : ℚ)) * ratio),
   jsRound ((c1.g : ℚ) + ((c2.g : ℚ) - (c1.g : ℚ)) * ratio),
   jsRound ((c1.b : ℚ) + ((c2.b : ℚ) - (c1.b : ℚ)) * ratio)⟩

/-! ## Height field pipeline (SnowOverlay, src/unnamed/part_001)

The field is a `Float32Array(width)`; we embed it as `ℕ → ℚ` and carry the
width separately, exactly as the loops of the source do. -/

/-- Slope threshold of the avalanche smoothing (source `threshold = 1.0`). -/
def threshold : ℚ := 1

/-- Transfer amount of the avalanche smoothing (source `settleAmount = 0.4`). -/
def settleAmount : ℚ := 2/5

/-- Decay step of part_001 lines 67-72: every 4th cell below `width` loses
`0.02` when above `0.1`, clamped at zero.  Each touched index is read and
written once per frame, so the sequential loop is this pointwise map. -/
def decayStep (w : ℕ) (f : ℕ → ℚ) : ℕ → ℚ := fun i =>
  if i < w ∧ i % 4 = 0 then
    if f i > 1/10 then
      if f i - 1/50 < 0 then 0 else f i - 1/50
    else f i
  else f i

/-- One conditional neighbor transfer of the smoothing loops (part_001 lines
85-88 and 94-97): both cells are read before either is written. -/
def transfer (f : ℕ → ℚ) (a b : ℕ) : ℕ → ℚ :=
  if f a > f b + threshold then
    Function.update (Function.update f a (f a - settleAmount)) b (f b + settleAmount)
  else f

/-- A sequential sweep applying `transfer` from each visited index `i` to its
neighbor `nb i`, in the order given by the index list. -/
def sweepBy (nb : ℕ → ℕ) (l : List ℕ) (f : ℕ → ℚ) : ℕ → ℚ :=
  l.foldl (fun g i => transfer g i (nb i)) f

/-- Left-to-right sweep (part_001 lines 82-89): `i = 1` to `width - 2`,
comparing with the right neighbor. -/
def sweepLR (w : ℕ) (f : ℕ → ℚ) : ℕ → ℚ :=
  sweepBy (fun i => i + 1) (List.range' 1 (w - 2)) f

/-- Right-to-left sweep (part_001 lines 91-98): `i = width - 2` down to `1`,
comparing with the left neighbor. -/
def sweepRL (w : ℕ) (f : ℕ → ℚ) : ℕ → ℚ :=
  sweepBy (fun i => i - 1) ((List.range' 1 (w - 2)).reverse) f

/-- One smoothing pass: left-to-right then right-to-left sweep. -/
def smoothPass (w : ℕ) (f : ℕ → ℚ) : ℕ → ℚ := sweepRL w (sweepLR w f)

/-- The fixed pass budget of the source (`passes = 3`). -/
def smoothPasses : ℕ → ℕ → (ℕ → ℚ) → ℕ → ℚ
  | 0, _, f => f
  | n + 1, w, f => smoothPasses n w (smoothPass w f)

/-- Index list `0, s, 2*s, ...` strictly below `w`, as produced by a loop
`for (i = 0; i < w; i += s)`. -/
def strideIdx (w s : ℕ) : List ℕ :=
  (List.range ((w + s - 1) / s)).map (fun j => j * s)

/-- Overflow check of part_001 lines 101-109: every 20th cell is compared
with `height - 10`; the flag is set when any sampled cell reaches it. -/
def overflowCheck (w : ℕ) (hgt : ℚ) (f : ℕ → ℚ) : Bool :=
  (strideIdx w 20).any (fun i => decide (hgt - 10 ≤ f i))

/-- Profile vertices of the accumulated-snow render (part_001 lines 113-128):
for `x = 0, 2, 4, ... < width` the path visits `(x, height - f x)` when
`f x > 0.5` and `(x, height)` otherwise.  The enclosing moveTo/closePath and
the gradient fill are presentational and not modelled. -/
def renderProfile (w : ℕ) (hgt : ℚ) (f : ℕ → ℚ) : List (ℕ × ℚ) :=
  (strideIdx w 2).map (fun x => (x, if f x > 1/2 then hgt - f x else hgt))

/-- The full-field reset `hMap.fill(0)` (part_001 line 147). -/
def resetField : ℕ → ℚ := fun _ => 0

/-! ## Snow particles (part_001) -/

/-- Snow particle state (part_001 interface `SnowParticle`). -/
structure SnowParticle where
  x : ℚ
  y : ℚ
  vx : ℚ
  vy : ℚ
  size : ℚ
  alpha : ℚ
deriving DecidableEq

/-- Joint state of the snow simulator: height field and particle pool. -/
structure SnowState where
  field : ℕ → ℚ
  particles : List SnowParticle

/-- Collision deposit of part_001 lines 186-197: cells within distance 8 of
the impact column each gain `size * 0.5 * exp(-(dist^2) / (2 * 4 * 4))`.
`expF` stands for the host `Math.exp`. -/
def depositAt (w : ℕ) (expF : ℚ → ℚ) (col : ℕ) (sz : ℚ) (f : ℕ → ℚ) : ℕ → ℚ := fun i =>
  if i < w ∧ (col : ℤ) - 8 ≤ (i : ℤ) ∧ (i : ℤ) ≤ (col : ℤ) + 8 then
    f i + sz * (1/2) * expF (-(((i : ℚ) - (col : ℚ)) ^ 2) / 32)
  else f i

/-- One iteration of the particle loop of part_001 lines 163-218 for a single
particle: integrate velocity, sine drift on the updated `y`, horizontal
wrap, then collision against the field (deposit and recycle), then the
bottom-edge failsafe recycle.  `fresh` is the `createParticle` result used
if this particle is recycled; the `Bool` reports whether it was consumed.
Drawing the particle has no simulation effect and is not modelled. -/
def stepParticle (w : ℕ) (hgt : ℚ) (expF sinF : ℚ → ℚ) (fresh : SnowParticle)
    (f : ℕ → ℚ) (p : SnowParticle) : (ℕ → ℚ) × SnowParticle × Bool :=
  let x1 := p.x + p.vx
  let y1 := p.y + p.vy
  let x2 := x1 + sinF (y1 * (1/50)) * (1/2)
  let x3 := if x2 < 0 then (w : ℚ) else if x2 > (w : ℚ) then 0 else x2
  let pX : ℤ := ⌊x3⌋
  if 0 ≤ pX ∧ pX < (w : ℤ) then
    if y1 ≥ (hgt - f pX.toNat) + 2 then
      (depositAt w expF pX.toNat p.size f, fresh, true)
    else if y1 > hgt then (f, fresh, true)
    else (f, { p with x := x3, y := y1 }, false)
  else if y1 > hgt then (f, fresh, true)
  else (f, { p with x := x3, y := y1 }, false)

/-- Sequential particle loop: the source iterates from the end of the array
toward the start, so the caller passes the pool reversed; results are
re-reversed by the caller.  `k` indexes the spawn stream (`Math.random`
draws); the third component is the stream position after the loop. -/
def stepListGen
    (stepFn : ℕ → (ℕ → ℚ) → SnowParticle → (ℕ → ℚ) × SnowParticle × Bool) :
    (ℕ → ℚ) → ℕ → List SnowParticle → (ℕ → ℚ) × List SnowParticle × ℕ
  | f, k, [] => (f, [], k)
  | f, k, p :: rest =>
    let r1 := stepFn k f p
    let k1 := k + (if r1.2.2 then 1 else 0)
    let r2 := stepListGen stepFn r1.1 k1 rest
    (r2.1, r1.2.1 :: r2.2.1, r2.2.2)

/-- One frame of the part_001 `update` in source order: (1) decay, (2) three
smoothing passes, (3) overflow check, (4) render the profile, (5) clear on
`motionScore > 0.3` or overflow, (6) early return when inactive with an
empty pool, (7) replenish one particle when active below 400, (8) particle
loop (movement, collision deposits, recycling).  Returns the new state and
the profile vertices drawn this frame. -/
def snowFrame (w : ℕ) (hgt motion : ℚ) (isActive : Bool) (expF sinF : ℚ → ℚ)
    (spawn : ℕ → SnowParticle) (s : SnowState) : SnowState × List (ℕ × ℚ) :=
  let f1 := decayStep w s.field
  let f2 := smoothPasses 3 w f1
  let ov := overflowCheck w hgt f2
  let profile := renderProfile w hgt f2
  let f3 := if motion > 3/10 ∨ ov = true then resetField else f2
  if isActive = false ∧ s.particles.length = 0 then
    ({ field := f3, particles := s.particles }, profile)
  else
    let ps1 := if isActive = true ∧ s.particles.length < 400
      then s.particles ++ [spawn 0] else s.particles
    let k0 : ℕ := if isActive = true ∧ s.particles.length < 400 then 1 else 0
    let r := stepListGen (fun k f p => stepParticle w hgt expF sinF (spawn k) f p)
      f3 k0 ps1.reverse
    ({ field := r.1, particles := r.2.1.reverse }, profile)

/-- Initial particle fill of part_001 lines 51-55: 300 particles are pushed
into an empty pool; each is a `createParticle` draw from the spawn stream. -/
def initialFill (spawn : ℕ → SnowParticle) : List SnowParticle :=
  (List.range 300).map spawn

/-! ## Component variant (src/components/SnowOverlay.tsx)

The checked-in component version of the snow overlay differs from part_001:
no decay/smoothing, overflow sampled every 10th cell against
`height - 20`, the clear runs before any render, deactivation empties the
pool, collision uses `p.y >= groundY - p.size`, and the deposit is a flat
`size * 0.5` over columns within distance 2. -/

/-- Overflow check of SnowOverlay.tsx lines 73-81. -/
def overflowCheckComp (w : ℕ) (hgt : ℚ) (f : ℕ → ℚ) : Bool :=
  (strideIdx w 10).any (fun i => decide (hgt - 20 ≤ f i))

/-- Flat deposit of SnowOverlay.tsx lines 144-151. -/
def depositFlat (w : ℕ) (col : ℕ) (sz : ℚ) (f : ℕ → ℚ) : ℕ → ℚ := fun i =>
  if i < w ∧ (col : ℤ) - 2 ≤ (i : ℤ) ∧ (i : ℤ) ≤ (col : ℤ) + 2 then
    f i + sz * (1/2)
  else f i

/-- Single-particle step of SnowOverlay.tsx lines 115-168 (movement and wrap
are identical to part_001; collision tolerance and deposit differ). -/
def stepParticleComp (w : ℕ) (hgt : ℚ) (sinF : ℚ → ℚ) (fresh : SnowParticle)
    (f : ℕ → ℚ) (p : SnowParticle) : (ℕ → ℚ) × SnowParticle × Bool :=
  let x1 := p.x + p.vx
  let y1 := p.y + p.vy
  let x2 := x1 + sinF (y1 * (1/50)) * (1/2)
  let x3 := if x2 < 0 then (w : ℚ) else if x2 > (w : ℚ) then 0 else x2
  let pX : ℤ := ⌊x3⌋
  if 0 ≤ pX ∧ pX < (w : ℤ) then
    if y1 ≥ (hgt - f pX.toNat) - p.size then
      (depositFlat w pX.toNat p.size f, fresh, true)
    else if y1 > hgt then (f, fresh, true)
    else (f, { p with x := x3, y := y1 }, false)
  else if y1 > hgt then (f, fresh, true)
  else (f, { p with x := x3, y := y1 }, false)

/-- One frame of the SnowOverlay.tsx `update` in source order: overflow
check, clear on motion or overflow, then if inactive the pool is emptied and
the frame ends; otherwise replenish one particle below 400 and run the
particle loop. -/
def snowFrameComp (w : ℕ) (hgt motion : ℚ) (isActive : Bool) (sinF : ℚ → ℚ)
    (spawn : ℕ → SnowParticle) (s : SnowState) : SnowState :=
  let ov := overflowCheckComp w hgt s.field
  let f1 := if motion > 3/10 ∨ ov = true then resetField else s.field
  if isActive = false then { field := f1, particles := [] }
  else
    let ps1 := if s.particles.length < 400 then s.particles ++ [spawn 0] else s.particles
    let k0 : ℕ := if s.particles.length < 400 then 1 else 0
    let r := stepListGen (fun k f p => stepParticleComp w hgt sinF (spawn k) f p)
      f1 k0 ps1.reverse
    { field := r.1, particles := r.2.1.reverse }

/-! ## Frost mask (FrostOverlay, src/unnamed/part_002)

The mask is an offscreen canvas whose alpha channel records accumulated
erasure; painting uses default source-over compositing, whose alpha rule is
`a_out = a_src + a_dst * (1 - a_src)`.  We embed the mask as a per-point
alpha `Point → ℚ` and the three paint operations of the source as
idealized geometric stamps (antialiasing is presentational). -/

/-- Planar point (src/types.ts `Point`). -/
structure Point where
  x : ℚ
  y : ℚ
deriving DecidableEq

/-- Melt drip particle (part_002 interface `Drip`). -/
structure Drip where
  x : ℚ
  y : ℚ
  vx : ℚ
  vy : ℚ
  size : ℚ
  life : ℚ
deriving DecidableEq

/-- Squared distance between two points. -/
def dist2 (p q : Point) : ℚ := (p.x - q.x) ^ 2 + (p.y - q.y) ^ 2

/-- Squared distance from `p` to the segment from `a` to `b` (clamped
projection); a round-capped stroked line of half-width `r` covers exactly
the points with `segDist2 ≤ r ^ 2`. -/
def segDist2 (a b p : Point) : ℚ :=
  let dx := b.x - a.x
  let dy := b.y - a.y
  let len2 := dx ^ 2 + dy ^ 2
  if len2 = 0 then dist2 p a
  else
    let t := max 0 (min 1 (((p.x - a.x) * dx + (p.y - a.y) * dy) / len2))
    (p.x - (a.x + t * dx)) ^ 2 + (p.y - (a.y + t * dy)) ^ 2

/-- Source-over alpha compositing: paint alpha `a` over existing alpha `b`. -/
def overA (a b : ℚ) : ℚ := a + b * (1 - a)

/-- Fill a disk of radius `r` with alpha `a` onto the mask (the dot stamp of
part_002 lines 179-181 with `a = 1`, and the drip stamp of lines 102-104
with `a = 0.8` and `r = drip.size`). -/
def stampDisk (c : Point) (r a : ℚ) (m : Point → ℚ) : Point → ℚ := fun p =>
  if dist2 p c ≤ r ^ 2 then overA a (m p) else m p

/-- Stroke a round-capped line of half-width `halfw` with alpha `a` onto the
mask (part_002 lines 172-177; `lineWidth = brushSize * 2`, opaque). -/
def strokeSegment (u v : Point) (halfw a : ℚ) (m : Point → ℚ) : Point → ℚ := fun p =>
  if segDist2 u v p ≤ halfw ^ 2 then overA a (m p) else m p

/-- Mask reinitialization on resize or reset (part_002 lines 62-68). -/
def resetMask : Point → ℚ := fun _ => 0

/-- Fixed brush radius of the drawing effect (part_002 `brushSize = 12`). -/
def brushSize : ℚ := 12

/-- Observable mask paint operations of one drawing-effect invocation. -/
inductive MaskOp
  | dot (c : Point)
  | seg (a b : Point)
deriving DecidableEq

/-- Frost simulator state touched by the drawing effect: the stroke
continuity reference, the live drips, and the mask. -/
structure FrostState where
  lastPoint : Option Point
  drips : List Drip
  mask : Point → ℚ

/-- The drawing effect of part_002 lines 155-208, run once per change of
`drawingPoint`.  With a point and a previous point, stroke a segment into
the mask; with a point and no previous point, stamp a dot; with no point
and a previous point (gesture end), spawn one drip with probability 0.4.
`rand` is the stream of `Math.random()` draws of this invocation, in call
order.  Also returns the list of mask paints performed. -/
def drawingStep (rand : ℕ → ℚ) (inp : Option Point) (s : FrostState) :
    FrostState × List MaskOp :=
  match inp with
  | some pt =>
    match s.lastPoint with
    | some prev =>
      ({ lastPoint := some pt, drips := s.drips,
         mask := strokeSegment prev pt brushSize 1 s.mask }, [MaskOp.seg prev pt])
    | none =>
      ({ lastPoint := some pt, drips := s.drips,
         mask := stampDisk pt brushSize 1 s.mask }, [MaskOp.dot pt])
  | none =>
    match s.lastPoint with
    | some lp =>
      if rand 0 < 2/5 then
        ({ lastPoint := none,
           drips := s.drips ++ [⟨lp.x + (rand 1 - 1/2) * brushSize, lp.y, 0,
             1/2 + rand 2 * (3/2), 1 + rand 3 * (3/2), 20 + rand 4 * 30⟩],
           mask := s.mask }, [])
      else ({ lastPoint := none, drips := s.drips, mask := s.mask }, [])
    | none => (s, [])

/-! ## Helper lemmas -/

/-- Rounding an interpolant that has moved less than one half from its start
returns the start channel. -/
lemma jsRound_close (c1 c2 : ℤ) (t : ℚ) (h0 : 0 ≤ t)
    (hb : |(c2 : ℚ) - (c1 : ℚ)| * t < 1/2) :
    jsRound ((c1 : ℚ) + ((c2 : ℚ) - (c1 : ℚ)) * t) = c1 := by
  have habs : |((c2 : ℚ) - (c1 : ℚ)) * t| < 1/2 := by
    rw [abs_mul, abs_of_nonneg h0]
    exact hb
  have h1 := abs_lt.mp habs
  unfold jsRound
  rw [Int.floor_eq_iff]
  constructor
  · linarith [h1.1]
  · linarith [h1.2]

/-- For sufficiently small progress, `getColor` returns the outer color
exactly: the interpolant moves less than half a channel unit before
rounding. -/
lemma getColor_small (pal : Palette) (q : ℚ)
    (hr : |(pal.mid.r : ℚ) - (pal.outer.r : ℚ)| ≤ 255)
    (hg : |(pal.mid.g : ℚ) - (pal.outer.g : ℚ)| ≤ 255)
    (hb : |(pal.mid.b : ℚ) - (pal.outer.b : ℚ)| ≤ 255)
    (h0 : 0 ≤ q) (h1 : q < 1/1000) : getColor pal q = pal.outer := by
  have hq : ¬ (q > 3/5) := by linarith
  have ht0 : 0 ≤ q / (3/5) := by positivity
  have ht1 : q / (3/5) < 1/600 := by
    rw [div_lt_iff₀ (by norm_num : (0:ℚ) < 3/5)]
    linarith
  have htle : q / (3/5) ≤ 1 := by linarith
  have hmin : min 1 (q / (3/5)) = q / (3/5) := min_eq_right htle
  have hmax : max 0 (q / (3/5)) = q / (3/5) := max_eq_right ht0
  have key : ∀ a b : ℤ, |(b : ℚ) - (a : ℚ)| ≤ 255 →
      jsRound ((a : ℚ) + ((b : ℚ) - (a : ℚ)) * (q / (3/5))) = a := by
    intro a b hab
    apply jsRound_close a b _ ht0
    calc |(b : ℚ) - (a : ℚ)| * (q / (3/5)) ≤ 255 * (q / (3/5)) := by
          apply mul_le_mul_of_nonneg_right hab ht0
      _ < 255 * (1/600) := by
          apply mul_lt_mul_of_pos_left ht1 (by norm_num)
      _ < 1/2 := by norm_num
  simp only [getColor, if_neg hq, hmin, hmax]
  rw [key pal.outer.r pal.mid.r hr, key pal.outer.g pal.mid.g hg,
    key pal.outer.b pal.mid.b hb]

/-- The conditional transfer keeps every cell non-negative: it only fires
when the source cell exceeds its neighbor by the threshold `1`, which is
larger than the transferred `0.4`. -/
lemma transfer_nonneg (f : ℕ → ℚ) (a b : ℕ) (h0 : ∀ i, 0 ≤ f i) :
    ∀ i, 0 ≤ transfer f a b i := by
  intro i
  unfold transfer
  split
  · rename_i h
    rcases eq_or_ne i b with rfl | hib
    · rw [Function.update_same]
      have := h0 i
      unfold settleAmount
      linarith
    · rw [Function.update_noteq hib]
      rcases eq_or_ne i a with rfl | hia
      · rw [Function.update_same]
        have := h0 b
        unfold threshold at h
        unfold settleAmount
        linarith
      · rw [Function.update_noteq hia]
        exact h0 i
  · exact h0 i

/-- Sweeps preserve non-negativity of the whole field. -/
lemma sweepBy_nonneg (nb : ℕ → ℕ) :
    ∀ (l : List ℕ) (f : ℕ → ℚ), (∀ i, 0 ≤ f i) → ∀ i, 0 ≤ sweepBy nb l f i := by
  intro l
  induction l with
  | nil => intro f h0 i; exact h0 i
  | cons x xs ih =>
    intro f h0 i
    have : sweepBy nb (x :: xs) f = sweepBy nb xs (transfer f x (nb x)) := rfl
    rw [this]
    exact ih (transfer f x (nb x)) (transfer_nonneg f x (nb x) h0) i

/-- One smoothing pass preserves non-negativity. -/
lemma smoothPass_nonneg (w : ℕ) (f : ℕ → ℚ) (h0 : ∀ i, 0 ≤ f i) :
    ∀ i, 0 ≤ smoothPass w f i :=
  sweepBy_nonneg _ _ _ (sweepBy_nonneg _ _ _ h0)

/-- Any number of smoothing passes preserves non-negativity. -/
lemma smoothPasses_nonneg (n w : ℕ) :
    ∀ (f : ℕ → ℚ), (∀ i, 0 ≤ f i) → ∀ i, 0 ≤ smoothPasses n w f i := by
  induction n with
  | zero => intro f h0 i; exact h0 i
  | succ m ih => intro f h0 i; exact ih (smoothPass w f) (smoothPass_nonneg w f h0) i

/-- A single conditional transfer between two distinct in-range cells
preserves the total mass of the field. -/
lemma transfer_sum (f : ℕ → ℚ) (a b w : ℕ) (ha : a < w) (hb : b < w) (hab : a ≠ b) :
    ∑ i ∈ Finset.range w, transfer f a b i = ∑ i ∈ Finset.range w, f i := by
  unfold transfer
  split
  · have hbm : b ∈ Finset.range w := Finset.mem_range.mpr hb
    have ham : a ∈ Finset.range w \ {b} := by
      rw [Finset.mem_sdiff, Finset.mem_singleton]
      exact ⟨Finset.mem_range.mpr ha, hab⟩
    rw [Finset.sum_update_of_mem hbm, Finset.sum_update_of_mem ham,
      Finset.sum_eq_sum_diff_singleton_add hbm f,
      Finset.sum_eq_sum_diff_singleton_add ham f]
    ring
  · rfl

/-- A sweep whose every step transfers between two distinct in-range cells
preserves the total mass of the field. -/
lemma sweepBy_sum (nb : ℕ → ℕ) (w : ℕ) :
    ∀ (l : List ℕ), (∀ x ∈ l, x ≠ nb x ∧ x < w ∧ nb x < w) → ∀ f,
      ∑ i ∈ Finset.range w, sweepBy nb l f i = ∑ i ∈ Finset.range w, f i := by
  intro l
  induction l with
  | nil => intro _ f; rfl
  | cons x xs ih =>
    intro hl f
    have hx := hl x (List.mem_cons_self x xs)
    have : sweepBy nb (x :: xs) f = sweepBy nb xs (transfer f x (nb x)) := rfl
    rw [this, ih (fun y hy => hl y (List.mem_cons_of_mem x hy)),
      transfer_sum f x (nb x) w hx.2.1 hx.2.2 hx.1]

/-- Indices visited by the left-to-right sweep stay in range with their
right neighbor. -/
lemma sweepLR_sum (w : ℕ) (f : ℕ → ℚ) :
    ∑ i ∈ Finset.range w, sweepLR w f i = ∑ i ∈ Finset.range w, f i := by
  apply sweepBy_sum
  intro x hx
  rw [List.mem_range'_1] at hx
  refine ⟨by omega, by omega, by omega⟩

/-- Indices visited by the right-to-left sweep stay in range with their left
neighbor. -/
lemma sweepRL_sum (w : ℕ) (f : ℕ → ℚ) :
    ∑ i ∈ Finset.range w, sweepRL w f i = ∑ i ∈ Finset.range w, f i := by
  apply sweepBy_sum
  intro x hx
  rw [List.mem_reverse, List.mem_range'_1] at hx
  refine ⟨by omega, by omega, by omega⟩

/-- One full smoothing pass preserves the total mass. -/
lemma smoothPass_sum (w : ℕ) (f : ℕ → ℚ) :
    ∑ i ∈ Finset.range w, smoothPass w f i = ∑ i ∈ Finset.range w, f i := by
  unfold smoothPass
  rw [sweepRL_sum, sweepLR_sum]

/-- Any number of smoothing passes preserves the total mass. -/
lemma smoothPasses_sum (n w : ℕ) :
    ∀ (f : ℕ → ℚ), ∑ i ∈ Finset.range w, smoothPasses n w f i = ∑ i ∈ Finset.range w, f i := by
  induction n with
  | zero => intro f; rfl
  | succ m ih =>
    intro f
    have : smoothPasses (m + 1) w f = smoothPasses m w (smoothPass w f) := rfl
    rw [this, ih (smoothPass w f), smoothPass_sum]

/-- Rounding an exact integer channel returns it unchanged. -/
lemma jsRound_intCast (c : ℤ) : jsRound (c : ℚ) = c := by
  unfold jsRound
  rw [Int.floor_int_add, show ⌊(1/2 : ℚ)⌋ = 0 from by norm_num]
  ring

/-- At progress 1 the upper interpolation segment ends at the core color. -/
lemma getColor_at_one (pal : Palette) : getColor pal 1 = pal.core := by
  have h1 : (1:ℚ) > 3/5 := by norm_num
  have hr : ((1:ℚ) - 3/5) / (2/5) = 1 := by norm_num
  simp only [getColor, if_pos h1, hr]
  rw [min_self, max_eq_right (by norm_num : (0:ℚ) ≤ 1)]
  have hc : ∀ a b : ℤ, (a:ℚ) + ((b:ℚ) - (a:ℚ)) * 1 = (b:ℚ) := by intro a b; ring
  rw [hc, hc, hc, jsRound_intCast, jsRound_intCast, jsRound_intCast]

/-- At progress exactly 0.6 the lower interpolation segment ends at the mid
color. -/
lemma getColor_at_boundary (pal : Palette) : getColor pal (3/5) = pal.mid := by
  have h1 : ¬ ((3/5:ℚ) > 3/5) := by norm_num
  have hr : (3/5 : ℚ) / (3/5) = 1 := by norm_num
  simp only [getColor, if_neg h1, hr]
  rw [min_self, max_eq_right (by norm_num : (0:ℚ) ≤ 1)]
  have hc : ∀ a b : ℤ, (a:ℚ) + ((b:ℚ) - (a:ℚ)) * 1 = (b:ℚ) := by intro a b; ring
  rw [hc, hc, hc, jsRound_intCast, jsRound_intCast, jsRound_intCast]

/-! ## Claim C1 -/

/-- Claim C1 counterexample: at progress exactly 1.0 (freshly spawned),
`getColor` returns the palette's core color, not its mid color as the claim
states; shown at the first reference palette, whose core and mid differ. -/
theorem getColor_fresh_not_mid :
    getColor palette1 1 = palette1.core ∧ getColor palette1 1 ≠ palette1.mid := by
  refine ⟨getColor_at_one palette1, ?_⟩
  rw [getColor_at_one palette1]
  decide

/-- Claim C1 (amended): for every group palette, the color at normalized
remaining life 1.0 equals the palette's core color; at progress exactly 0.6
it equals exactly the mid color (the boundary of the two interpolation
segments); and as progress approaches 0 it approaches the outer color — for
every progress in `[0, 1/1000)` the rounded channels equal the outer color
exactly. -/
theorem getColor_boundaries (pal : Palette) (hmem : pal ∈ PALETTES) :
    getColor pal 1 = pal.core ∧ getColor pal (3/5) = pal.mid ∧
      ∀ q : ℚ, 0 ≤ q → q < 1/1000 → getColor pal q = pal.outer := by
  refine ⟨getColor_at_one pal, getColor_at_boundary pal, ?_⟩
  intro q h0 h1
  have hcases : pal = palette1 ∨ pal = palette2 ∨ pal = palette3 := by
    simpa [PALETTES] using hmem
  rcases hcases with rfl | rfl | rfl <;>
    apply getColor_small _ q _ _ _ h0 h1 <;>
    · simp only [palette1, palette2, palette3]
      rw [abs_le]
      constructor <;> norm_num

/-- Claim C1 witness: the amended theorem applied to the first palette at
progress 0. -/
theorem getColor_boundaries_witness :
    palette1 ∈ PALETTES ∧ getColor palette1 0 = palette1.outer :=
  ⟨by simp [PALETTES],
   (getColor_boundaries palette1 (by simp [PALETTES])).2.2 0 (by norm_num) (by norm_num)⟩

/-! ## Claim C2 -/

/-- Claim C2: one relaxation pass (a left-to-right sweep followed by a
right-to-left sweep), and hence the whole fixed 3-pass budget, preserves the
sum of all cell values exactly in the embedded rational arithmetic: every
transfer subtracts the settle amount from one cell and adds the same amount
to its immediate neighbor, and no other cell changes. -/
theorem smoothPass_sum_preserved (w : ℕ) (f : ℕ → ℚ) :
    (∑ i ∈ Finset.range w, smoothPass w f i = ∑ i ∈ Finset.range w, f i) ∧
      (∑ i ∈ Finset.range w, smoothPasses 3 w f i = ∑ i ∈ Finset.range w, f i) :=
  ⟨smoothPass_sum w f, smoothPasses_sum 3 w f⟩

/-! ## Claim C3 -/

/-- The strided decay keeps every cell non-negative. -/
lemma decayStep_nonneg (w : ℕ) (f : ℕ → ℚ) (h0 : ∀ i, 0 ≤ f i) :
    ∀ i, 0 ≤ decayStep w f i := by
  intro i
  unfold decayStep
  split
  · split
    · split
      · exact le_refl 0
      · rename_i hneg
        linarith [not_lt.mp hneg]
    · exact h0 i
  · exact h0 i

/-- The collision deposit only adds non-negative amounts. -/
lemma depositAt_nonneg (w col : ℕ) (sz : ℚ) (expF : ℚ → ℚ) (f : ℕ → ℚ)
    (h0 : ∀ i, 0 ≤ f i) (hsz : 0 ≤ sz) (hexp : ∀ x, 0 ≤ expF x) :
    ∀ i, 0 ≤ depositAt w expF col sz f i := by
  intro i
  unfold depositAt
  split
  · have h1 : 0 ≤ sz * (1/2) * expF (-(((i : ℚ) - (col : ℚ)) ^ 2) / 32) := by
      apply mul_nonneg (mul_nonneg hsz (by norm_num)) (hexp _)
    linarith [h0 i]
  · exact h0 i

/-- Claim C3: starting from a non-negative field, every field operation of a
frame keeps every cell non-negative — the strided decay (which clamps at
zero), the three relaxation passes (each transfer fires only when the taller
cell exceeds its neighbor by the threshold `1`, larger than the settle
amount `0.4`), any particle deposit with non-negative particle size and a
non-negative falloff kernel (both true of the source: sizes are at least
`1.5` and the kernel is `Math.exp`), and the full-field reset. -/
theorem field_ops_nonneg (w col : ℕ) (sz : ℚ) (expF : ℚ → ℚ) (f : ℕ → ℚ)
    (h0 : ∀ i, 0 ≤ f i) :
    (∀ i, 0 ≤ decayStep w f i) ∧
      (∀ i, 0 ≤ smoothPasses 3 w f i) ∧
      (0 ≤ sz → (∀ x, 0 ≤ expF x) → ∀ i, 0 ≤ depositAt w expF col sz f i) ∧
      (∀ i, 0 ≤ resetField i) :=
  ⟨decayStep_nonneg w f h0, smoothPasses_nonneg 3 w f h0,
   fun hsz hexp => depositAt_nonneg w col sz expF f h0 hsz hexp,
   fun _ => le_refl 0⟩

/-- Claim C3 witness: the theorem applied to the all-zero field of width 4
with particle size 2 and a unit kernel, evaluated at cell 0 of the decay. -/
theorem field_ops_nonneg_witness :
    (∀ i, 0 ≤ resetField i) ∧ 0 ≤ decayStep 4 resetField 0 := by
  have h0 : ∀ i, 0 ≤ resetField i := fun _ => le_refl 0
  exact ⟨h0, (field_ops_nonneg 4 0 2 (fun _ => 1) resetField h0).1 0⟩

/-! ## Claim C10 -/

/-- Membership in the stride-20 sampling list is exactly divisibility by 20
below the width. -/
lemma mem_strideIdx20 (w i : ℕ) : i ∈ strideIdx w 20 ↔ i % 20 = 0 ∧ i < w := by
  unfold strideIdx
  rw [List.mem_map]
  constructor
  · rintro ⟨j, hj, rfl⟩
    rw [List.mem_range] at hj
    omega
  · rintro ⟨h1, h2⟩
    refine ⟨i / 20, ?_, by omega⟩
    rw [List.mem_range]
    omega

/-- Claim C10: the snow overflow signal is raised if and only if some cell
whose index is a multiple of 20 and below the width has value at least
`height - 10`; a field exceeding the bound only at other columns never
raises the signal. -/
theorem overflowCheck_iff (w : ℕ) (hgt : ℚ) (f : ℕ → ℚ) :
    overflowCheck w hgt f = true ↔ ∃ i, i < w ∧ i % 20 = 0 ∧ hgt - 10 ≤ f i := by
  unfold overflowCheck
  rw [List.any_eq_true]
  constructor
  · rintro ⟨i, hi, hd⟩
    rw [mem_strideIdx20] at hi
    exact ⟨i, hi.2, hi.1, of_decide_eq_true hd⟩
  · rintro ⟨i, h1, h2, h3⟩
    exact ⟨i, (mem_strideIdx20 w i).mpr ⟨h2, h1⟩, decide_eq_true h3⟩

/-! ## Snow frame helper lemmas -/

/-- The decay does nothing to the all-zero field. -/
lemma decayStep_resetField (w : ℕ) : decayStep w resetField = resetField := by
  funext i
  simp [decayStep, resetField]

/-- A transfer does nothing on the all-zero field. -/
lemma transfer_resetField (a b : ℕ) : transfer resetField a b = resetField := by
  unfold transfer
  rw [if_neg]
  simp [resetField, threshold]

/-- Sweeps do nothing on the all-zero field. -/
lemma sweepBy_resetField (nb : ℕ → ℕ) :
    ∀ l : List ℕ, sweepBy nb l resetField = resetField := by
  intro l
  induction l with
  | nil => rfl
  | cons x xs ih =>
    have h : sweepBy nb (x :: xs) resetField
        = sweepBy nb xs (transfer resetField x (nb x)) := rfl
    rw [h, transfer_resetField, ih]

/-- Smoothing passes do nothing on the all-zero field. -/
lemma smoothPasses_resetField (n w : ℕ) : smoothPasses n w resetField = resetField := by
  induction n with
  | zero => rfl
  | succ m ih =>
    have h : smoothPasses (m + 1) w resetField
        = smoothPasses m w (smoothPass w resetField) := rfl
    rw [h, show smoothPass w resetField = resetField from by
      unfold smoothPass sweepRL sweepLR
      rw [sweepBy_resetField, sweepBy_resetField], ih]

/-- The overflow check is silent on the all-zero field whenever the surface
is taller than the margin. -/
lemma overflowCheck_resetField (w : ℕ) (hgt : ℚ) (h : ¬ (hgt - 10 ≤ 0)) :
    overflowCheck w hgt resetField = false := by
  unfold overflowCheck
  rw [List.any_eq_false]
  intro i _
  simpa [resetField] using h

/-- A particle whose fall this frame stays above the collision line of an
empty column leaves a zero field untouched. -/
lemma stepParticle_field_zero (w : ℕ) (hgt : ℚ) (expF sinF : ℚ → ℚ)
    (fresh p : SnowParticle) (f : ℕ → ℚ) (hz : ∀ i, f i = 0)
    (hp : p.y + p.vy < hgt + 2) :
    (stepParticle w hgt expF sinF fresh f p).1 = f := by
  simp only [stepParticle]
  split_ifs <;> try rfl
  all_goals
    exfalso
    simp only [hz] at *
    linarith

/-- The particle loop leaves a zero field all-zero when no particle reaches
the collision line. -/
lemma stepListGen_field_zero (w : ℕ) (hgt : ℚ) (expF sinF : ℚ → ℚ)
    (spawn : ℕ → SnowParticle) :
    ∀ (ps : List SnowParticle) (f : ℕ → ℚ) (k : ℕ), (∀ i, f i = 0) →
      (∀ p ∈ ps, p.y + p.vy < hgt + 2) →
      ∀ i, (stepListGen (fun k f p => stepParticle w hgt expF sinF (spawn k) f p)
        f k ps).1 i = 0 := by
  intro ps
  induction ps with
  | nil => intro f k hz _ i; exact hz i
  | cons p rest ih =>
    intro f k hz hp i
    simp only [stepListGen]
    rw [stepParticle_field_zero w hgt expF sinF (spawn k) p f hz
      (hp p (List.mem_cons_self p rest))]
    exact ih f _ hz (fun q hq => hp q (List.mem_cons_of_mem p hq)) i

/-- The particle loop preserves the pool length: every particle is either
kept or recycled in place, never removed. -/
lemma stepListGen_length
    (stepFn : ℕ → (ℕ → ℚ) → SnowParticle → (ℕ → ℚ) × SnowParticle × Bool) :
    ∀ (ps : List SnowParticle) (f : ℕ → ℚ) (k : ℕ),
      ((stepListGen stepFn f k ps).2.1).length = ps.length := by
  intro ps
  induction ps with
  | nil => intro f k; rfl
  | cons p rest ih =>
    intro f k
    simp only [stepListGen, List.length_cons]
    rw [ih]

/-- Pool length after one part_001 frame: unchanged on the inactive-empty
early return, incremented by the single replenished particle when active
below 400, and unchanged otherwise. -/
lemma snowFrame_len (w : ℕ) (hgt motion : ℚ) (isActive : Bool) (expF sinF : ℚ → ℚ)
    (spawn : ℕ → SnowParticle) (s : SnowState) :
    (snowFrame w hgt motion isActive expF sinF spawn s).1.particles.length =
      if isActive = true ∧ s.particles.length < 400 then s.particles.length + 1
      else s.particles.length := by
  unfold snowFrame
  by_cases hA : isActive = false ∧ s.particles.length = 0
  · have hB : ¬ (isActive = true ∧ s.particles.length < 400) := by
      rintro ⟨h1, _⟩
      rw [h1] at hA
      exact absurd hA.1 (by simp)
    simp [hA, hB]
  · rw [if_neg hA]
    by_cases hB : isActive = true ∧ s.particles.length < 400
    · simp [hB, stepListGen_length]
    · simp [hB, stepListGen_length]

/-- The component variant empties the pool the moment the effect is
inactive (SnowOverlay.tsx lines 100-104). -/
lemma snowFrameComp_inactive (w : ℕ) (hgt motion : ℚ) (sinF : ℚ → ℚ)
    (spawn : ℕ → SnowParticle) (s : SnowState) :
    (snowFrameComp w hgt motion false sinF spawn s).particles = [] := by
  unfold snowFrameComp
  rw [if_pos rfl]

/-- Pool length after one active component frame: one particle is added when
below 400. -/
lemma snowFrameComp_len_active (w : ℕ) (hgt motion : ℚ) (sinF : ℚ → ℚ)
    (spawn : ℕ → SnowParticle) (s : SnowState) :
    (snowFrameComp w hgt motion true sinF spawn s).particles.length =
      if s.particles.length < 400 then s.particles.length + 1
      else s.particles.length := by
  unfold snowFrameComp
  rw [if_neg (by simp)]
  by_cases hB : s.particles.length < 400
  · simp [hB, stepListGen_length]
  · simp [hB, stepListGen_length]

/-! ## Claim C4 -/

/-- Claim C4 counterexample: a frame whose motion score `1` exceeds the
reset threshold does clear the field mid-frame, but a particle that crosses
the collision line later in the same frame (here one at `y = 50 = height`
with `vy = 2.2`, landing at `52.2 ≥ height + 2` over the cleared column)
deposits into the cleared field, so the next evaluated frame does not
observe an all-zero field: cell 0 holds `size * 0.5 * exp(0) = 1`. -/
theorem reset_frame_not_all_zero :
    ((1 : ℚ) > 3/10) ∧
    (snowFrame 1 50 1 false (fun _ => 1) (fun _ => 0) (fun _ => ⟨0, -10, 0, 1, 2, 1⟩)
        ⟨resetField, [⟨0, 50, 0, 11/5, 2, 1⟩]⟩).1.field 0 = 1 := by
  refine ⟨by norm_num, ?_⟩
  have hd : decayStep 1 resetField = resetField := decayStep_resetField 1
  have hsm : smoothPasses 3 1 resetField = resetField := smoothPasses_resetField 3 1
  have hov : overflowCheck 1 50 resetField = false :=
    overflowCheck_resetField 1 50 (by norm_num)
  simp only [snowFrame, hd, hsm, hov]
  rw [if_pos (Or.inl (by norm_num : (1:ℚ) > 3/10))]
  rw [if_neg (by simp)]
  rw [if_neg (by simp), if_neg (by simp)]
  norm_num [stepListGen, stepParticle, depositAt, resetField, Int.floor_zero]

/-- Claim C4 (amended): in every frame whose motion score exceeds 0.3 or
whose overflow check signals, every cell of the height field is zeroed at
the clear step of that frame; the next evaluated frame observes an all-zero
field provided no particle crosses the collision line of the cleared field
(`y + vy < height + 2`) during the remainder of the frame — particles that
do cross it deposit into the already-cleared field. -/
theorem reset_frame_field_zero (w : ℕ) (hgt motion : ℚ) (isActive : Bool)
    (expF sinF : ℚ → ℚ) (spawn : ℕ → SnowParticle) (s : SnowState)
    (htrig : motion > 3/10 ∨
      overflowCheck w hgt (smoothPasses 3 w (decayStep w s.field)) = true)
    (hp : ∀ p ∈ s.particles, p.y + p.vy < hgt + 2)
    (hs : (spawn 0).y + (spawn 0).vy < hgt + 2) :
    ∀ i, (snowFrame w hgt motion isActive expF sinF spawn s).1.field i = 0 := by
  intro i
  simp only [snowFrame]
  rw [if_pos htrig]
  by_cases hA : isActive = false ∧ s.particles.length = 0
  · rw [if_pos hA]
    rfl
  · rw [if_neg hA]
    apply stepListGen_field_zero w hgt expF sinF spawn _ resetField _ (fun _ => rfl)
    intro q hq
    rw [List.mem_reverse] at hq
    by_cases hB : isActive = true ∧ s.particles.length < 400
    · rw [if_pos hB] at hq
      rcases List.mem_append.mp hq with h | h
      · exact hp q h
      · rw [List.mem_singleton] at h
        rw [h]
        exact hs
    · rw [if_neg hB] at hq
      exact hp q hq

/-- Claim C4 witness: the amended theorem on an all-zero two-cell field
with no particles and motion score 1, read back at cell 0. -/
theorem reset_frame_field_zero_witness :
    ((1 : ℚ) > 3/10 ∨ overflowCheck 2 50
      (smoothPasses 3 2 (decayStep 2 resetField)) = true) ∧
    (snowFrame 2 50 1 false (fun _ => 1) (fun _ => 0) (fun _ => ⟨0, -10, 0, 1, 2, 1⟩)
        ⟨resetField, []⟩).1.field 0 = 0 := by
  refine ⟨Or.inl (by norm_num), ?_⟩
  exact reset_frame_field_zero 2 50 1 false (fun _ => 1) (fun _ => 0)
    (fun _ => ⟨0, -10, 0, 1, 2, 1⟩) ⟨resetField, []⟩ (Or.inl (by norm_num))
    (by simp) (by norm_num) 0

/-! ## Claim C5 -/

/-- Claim C5 counterexample: a frame with motion score 1 (reset detected)
and a pre-frame pile of height 60 at column 0 renders the profile vertex
`(0, height - 59.98)` computed from the pre-reset field — not the empty-pile
vertex `(0, height)` — even though the same frame does zero the field. -/
theorem reset_frame_renders_pre_reset :
    ((1 : ℚ) > 3/10) ∧
    (snowFrame 2 100 1 false (fun _ => 1) (fun _ => 0) (fun _ => ⟨0, -10, 0, 1, 2, 1⟩)
        ⟨fun i => if i = 0 then 60 else 0, []⟩).2 = [(0, 2001/50)] ∧
    (snowFrame 2 100 1 false (fun _ => 1) (fun _ => 0) (fun _ => ⟨0, -10, 0, 1, 2, 1⟩)
        ⟨fun i => if i = 0 then 60 else 0, []⟩).1.field 0 = 0 ∧
    ((2001 : ℚ)/50 ≠ 100) := by
  have hpass : ∀ f : ℕ → ℚ, smoothPasses 3 2 f = f := by
    intro f
    rfl
  have hd : decayStep 2 (fun i => if i = 0 then 60 else 0)
      = fun i => if i = 0 then (2999/50 : ℚ) else 0 := by
    funext i
    rcases Nat.eq_zero_or_pos i with rfl | hi
    · norm_num [decayStep]
    · have h0 : ¬ (i = 0) := by omega
      by_cases h4 : i < 2 ∧ i % 4 = 0
      · simp [decayStep, h4, h0]
      · simp [decayStep, h4, h0]
  have hframe : ∀ g : ℕ → ℚ,
      snowFrame 2 100 1 false (fun _ => 1) (fun _ => 0) (fun _ => ⟨0, -10, 0, 1, 2, 1⟩)
          ⟨g, []⟩ =
        ({ field := if (1:ℚ) > 3/10 ∨
             overflowCheck 2 100 (smoothPasses 3 2 (decayStep 2 g)) = true
             then resetField else smoothPasses 3 2 (decayStep 2 g),
           particles := [] },
         renderProfile 2 100 (smoothPasses 3 2 (decayStep 2 g))) := by
    intro g
    simp [snowFrame]
  refine ⟨by norm_num, ?_, ?_, by norm_num⟩
  · rw [hframe, hd, hpass]
    norm_num [renderProfile, strideIdx, List.range_succ]
  · rw [hframe, hd, hpass]
    have h1 : ((1:ℚ) > 3/10 ∨
        overflowCheck 2 100 (fun i => if i = 0 then (2999/50 : ℚ) else 0) = true) :=
      Or.inl (by norm_num)
    simp only [if_pos h1]
    rfl

/-- Claim C5 (amended): the profile rendered by a frame is computed from the
relaxed field before the reset is applied — the reset runs after rendering
— so a frame that detects a reset still renders the pre-reset pile, and the
cleared field is first rendered on the following frame. -/
theorem profile_uses_pre_reset_field (w : ℕ) (hgt motion : ℚ) (isActive : Bool)
    (expF sinF : ℚ → ℚ) (spawn : ℕ → SnowParticle) (s : SnowState) :
    (snowFrame w hgt motion isActive expF sinF spawn s).2 =
      renderProfile w hgt (smoothPasses 3 w (decayStep w s.field)) := by
  simp only [snowFrame]
  split <;> rfl

/-! ## Claim C6 -/

/-- Claim C6 counterexample: an active part_001 frame starting from the
initial fill of 300 particles (all far above the ground) ends with 301
particles, not the target population 400; and one inactive frame of the
component variant empties a non-empty pool instead of keeping its particle
alive. -/
theorem replenish_single_not_full :
    (300 : ℕ) < 400 ∧
    (snowFrame 1 50 0 true (fun _ => 1) (fun _ => 0) (fun _ => ⟨0, -10, 0, 1, 2, 1⟩)
        ⟨resetField, List.replicate 300 ⟨0, 0, 0, 1, 2, 1⟩⟩).1.particles.length = 301 ∧
    (301 : ℕ) ≠ 400 ∧
    (snowFrameComp 1 50 0 false (fun _ => 0) (fun _ => ⟨0, -10, 0, 1, 2, 1⟩)
        ⟨resetField, [⟨0, 0, 0, 1, 2, 1⟩]⟩).particles = [] := by
  refine ⟨by norm_num, ?_, by norm_num,
    snowFrameComp_inactive 1 50 0 (fun _ => 0) (fun _ => ⟨0, -10, 0, 1, 2, 1⟩)
      ⟨resetField, [⟨0, 0, 0, 1, 2, 1⟩]⟩⟩
  rw [snowFrame_len]
  norm_num [List.length_replicate]

/-- Claim C6 (amended): when the snow effect is active and the pool is below
the target 400, a frame of part_001 spawns exactly one new particle (the
pool reaches the target only over successive frames); when the effect is
inactive, part_001 spawns none and keeps simulating the existing particles
(the pool length is unchanged), while the component variant
SnowOverlay.tsx instead empties the pool at once (and likewise adds one
per active frame below 400). -/
theorem replenish_rate (w : ℕ) (hgt motion : ℚ) (expF sinF : ℚ → ℚ)
    (spawn : ℕ → SnowParticle) (s : SnowState) :
    ((snowFrame w hgt motion true expF sinF spawn s).1.particles.length =
       if s.particles.length < 400 then s.particles.length + 1
       else s.particles.length) ∧
      ((snowFrame w hgt motion false expF sinF spawn s).1.particles.length
        = s.particles.length) ∧
      ((snowFrameComp w hgt motion false sinF spawn s).particles = []) ∧
      ((snowFrameComp w hgt motion true sinF spawn s).particles.length =
       if s.particles.length < 400 then s.particles.length + 1
       else s.particles.length) := by
  refine ⟨?_, ?_, snowFrameComp_inactive w hgt motion sinF spawn s,
    snowFrameComp_len_active w hgt motion sinF spawn s⟩
  · rw [snowFrame_len]
    by_cases h : s.particles.length < 400 <;> simp [h]
  · rw [snowFrame_len]
    simp

/-! ## Claim C9 -/

/-- Claim C9: the part_001 pool never shrinks once initialized — the initial
fill has exactly 300 particles, a frame adds at most one particle and
removes none, the length stays within `[300, 400]` whenever it starts
there, and an inactive frame leaves the length unchanged (deactivation
never empties the pool). -/
theorem pool_size_invariant (w : ℕ) (hgt motion : ℚ) (isActive : Bool)
    (expF sinF : ℚ → ℚ) (spawn : ℕ → SnowParticle) (s : SnowState)
    (h3 : 300 ≤ s.particles.length) (h4 : s.particles.length ≤ 400) :
    (initialFill spawn).length = 300 ∧
      300 ≤ (snowFrame w hgt motion isActive expF sinF spawn s).1.particles.length ∧
      (snowFrame w hgt motion isActive expF sinF spawn s).1.particles.length ≤ 400 ∧
      s.particles.length
        ≤ (snowFrame w hgt motion isActive expF sinF spawn s).1.particles.length ∧
      (snowFrame w hgt motion isActive expF sinF spawn s).1.particles.length
        ≤ s.particles.length + 1 ∧
      (isActive = false →
        (snowFrame w hgt motion isActive expF sinF spawn s).1.particles.length
          = s.particles.length) := by
  have hlen := snowFrame_len w hgt motion isActive expF sinF spawn s
  refine ⟨by simp [initialFill], ?_, ?_, ?_, ?_, ?_⟩ <;> rw [hlen]
  · split_ifs <;> omega
  · split_ifs <;> omega
  · split_ifs <;> omega
  · split_ifs <;> omega
  · intro h
    rw [h]
    simp

/-- Claim C9 witness: the theorem on a pool of exactly 300 particles during
an inactive frame, reading back the upper population bound. -/
theorem pool_size_invariant_witness :
    300 ≤ (List.replicate 300 (⟨0, 0, 0, 1, 2, 1⟩ : SnowParticle)).length ∧
    (List.replicate 300 (⟨0, 0, 0, 1, 2, 1⟩ : SnowParticle)).length ≤ 400 ∧
    (snowFrame 1 50 0 false (fun _ => 1) (fun _ => 0) (fun _ => ⟨0, -10, 0, 1, 2, 1⟩)
        ⟨resetField, List.replicate 300 ⟨0, 0, 0, 1, 2, 1⟩⟩).1.particles.length
      ≤ 400 := by
  refine ⟨by norm_num, by norm_num, ?_⟩
  exact (pool_size_invariant 1 50 0 false (fun _ => 1) (fun _ => 0)
    (fun _ => ⟨0, -10, 0, 1, 2, 1⟩) ⟨resetField, List.replicate 300 ⟨0, 0, 0, 1, 2, 1⟩⟩
    (by norm_num) (by norm_num)).2.2.1

/-! ## Claim C7 -/

/-- Source-over compositing with a source alpha in `[0, 1]` never decreases
the destination alpha, never exceeds 1, and keeps a fully-opaque
destination fully opaque. -/
lemma overA_bounds (a b : ℚ) (ha0 : 0 ≤ a) (ha1 : a ≤ 1) (_hb0 : 0 ≤ b) (hb1 : b ≤ 1) :
    b ≤ overA a b ∧ overA a b ≤ 1 ∧ (b = 1 → overA a b = 1) := by
  unfold overA
  refine ⟨by nlinarith, by nlinarith, ?_⟩
  intro h
  rw [h]
  ring

/-- Claim C7: absent a reset, every per-frame mask operation — the
connecting stroke line (opaque), the start-of-stroke dot stamp (opaque),
and the drip trail stamp (alpha 0.8) — only increases or preserves the
accumulated erasure alpha of every mask point, keeps it at most 1, and
leaves a fully erased point (alpha 1) fully erased; only the resize/reset
reinitialization sets the mask back to 0. -/
theorem mask_ops_monotone (u v c q : Point) (sz : ℚ) (m : Point → ℚ)
    (h0 : 0 ≤ m q) (h1 : m q ≤ 1) :
    (m q ≤ strokeSegment u v brushSize 1 m q ∧ strokeSegment u v brushSize 1 m q ≤ 1 ∧
      (m q = 1 → strokeSegment u v brushSize 1 m q = 1)) ∧
    (m q ≤ stampDisk c brushSize 1 m q ∧ stampDisk c brushSize 1 m q ≤ 1 ∧
      (m q = 1 → stampDisk c brushSize 1 m q = 1)) ∧
    (m q ≤ stampDisk c sz (4/5) m q ∧ stampDisk c sz (4/5) m q ≤ 1 ∧
      (m q = 1 → stampDisk c sz (4/5) m q = 1)) ∧
    resetMask q = 0 := by
  have hstroke := overA_bounds 1 (m q) (by norm_num) (by norm_num) h0 h1
  have hdrip := overA_bounds (4/5) (m q) (by norm_num) (by norm_num) h0 h1
  refine ⟨?_, ?_, ?_, rfl⟩
  · simp only [strokeSegment]
    split_ifs
    · exact hstroke
    · exact ⟨le_refl _, h1, fun h => h⟩
  · simp only [stampDisk]
    split_ifs
    · exact hstroke
    · exact ⟨le_refl _, h1, fun h => h⟩
  · simp only [stampDisk]
    split_ifs
    · exact hdrip
    · exact ⟨le_refl _, h1, fun h => h⟩

/-- Claim C7 witness: the theorem on the constant half-erased mask at the
origin, reading back that the reset returns alpha 0. -/
theorem mask_ops_monotone_witness :
    0 ≤ (fun _ : Point => (1/2 : ℚ)) ⟨0, 0⟩ ∧
      (fun _ : Point => (1/2 : ℚ)) ⟨0, 0⟩ ≤ 1 ∧ resetMask ⟨0, 0⟩ = 0 := by
  refine ⟨by norm_num, by norm_num, ?_⟩
  exact (mask_ops_monotone ⟨0, 0⟩ ⟨1, 1⟩ ⟨2, 2⟩ ⟨0, 0⟩ 2 (fun _ => 1/2)
    (by norm_num) (by norm_num)).2.2.2

/-! ## Claim C8 -/

/-- Claim C8: feeding the drawing-point sequence `(10,10)`, `(20,10)`,
`null` to the frost drawing effect paints exactly one start-of-stroke dot
at `(10,10)`, then exactly one connecting stroke segment from `(10,10)` to
`(20,10)`, and nothing at the null transition; at the null transition
exactly one drip spawns precisely when the random draw is below 0.4 — at
the stroke's last position `(20,10)` with jittered x, zero horizontal
velocity, downward velocity `0.5..2`, size `1..2.5` and life `20..50` —
and otherwise no drip spawns. -/
theorem stroke_sequence_behavior (m0 : Point → ℚ) (r1 r2 r3 : ℕ → ℚ) :
    (drawingStep r1 (some ⟨10, 10⟩) ⟨none, [], m0⟩).2 = [MaskOp.dot ⟨10, 10⟩] ∧
    (drawingStep r2 (some ⟨20, 10⟩)
        (drawingStep r1 (some ⟨10, 10⟩) ⟨none, [], m0⟩).1).2
      = [MaskOp.seg ⟨10, 10⟩ ⟨20, 10⟩] ∧
    (drawingStep r3 none (drawingStep r2 (some ⟨20, 10⟩)
        (drawingStep r1 (some ⟨10, 10⟩) ⟨none, [], m0⟩).1).1).2 = [] ∧
    (r3 0 < 2/5 →
      (drawingStep r3 none (drawingStep r2 (some ⟨20, 10⟩)
          (drawingStep r1 (some ⟨10, 10⟩) ⟨none, [], m0⟩).1).1).1.drips
        = [⟨20 + (r3 1 - 1/2) * 12, 10, 0, 1/2 + r3 2 * (3/2), 1 + r3 3 * (3/2),
            20 + r3 4 * 30⟩]) ∧
    (¬ (r3 0 < 2/5) →
      (drawingStep r3 none (drawingStep r2 (some ⟨20, 10⟩)
          (drawingStep r1 (some ⟨10, 10⟩) ⟨none, [], m0⟩).1).1).1.drips = []) := by
  refine ⟨rfl, rfl, ?_, ?_, ?_⟩
  · by_cases h : r3 0 < 2/5 <;> simp [drawingStep, h]
  · intro h
    simp [drawingStep, h, brushSize]
  · intro h
    simp [drawingStep, h]

/-- Claim C8 witness: the theorem with the all-zero random streams, whose
null-transition draw `0 < 0.4` spawns the single drip. -/
theorem stroke_sequence_behavior_witness :
    ((0 : ℚ) < 2/5) ∧
    (drawingStep (fun _ => 0) none (drawingStep (fun _ => 0) (some ⟨20, 10⟩)
        (drawingStep (fun _ => 0) (some ⟨10, 10⟩)
          ⟨none, [], fun _ => 0⟩).1).1).1.drips
      = [⟨20 + ((0 : ℚ) - 1/2) * 12, 10, 0, 1/2 + 0 * (3/2), 1 + 0 * (3/2),
          20 + 0 * 30⟩] := by
  refine ⟨by norm_num, ?_⟩
  exact (stroke_sequence_behavior (fun _ => 0) (fun _ => 0) (fun _ => 0)
    (fun _ => 0)).2.2.2.1 (by norm_num)
